import Mathlib

/-!
Shallow embedding of `torchgeo/datasets/idtrees.py` (the `IDTReeS` dataset class),
together with the torchvision box utilities it calls (`clip_boxes_to_image`,
`remove_small_boxes`).  Machine integers are modelled as `Int`; python exceptions
are modelled with `Except PyErr`; a python `dict` key lookup that can raise
`KeyError` is modelled with `Option`-valued lookup functions.
-/

namespace IDTReeS

/-- Python exception kinds that the embedded code paths can raise. -/
inductive PyErr
  | keyError
  | indexError
  | valueError
  deriving DecidableEq

/-- One bounding box row in xyxy order, as stored in the `[N, 4]` box tensor
built by `_load_boxes` (`boxes.append([xmin, ymin, xmax, ymax])`). -/
structure Box where
  xmin : Int
  ymin : Int
  xmax : Int
  ymax : Int
  deriving DecidableEq

/-- Shape-aware model of the box tensor.  `torch.tensor([])` (from an empty
python list of boxes) is a one-dimensional tensor of shape `(0,)`, while a
nonempty list of 4-element rows gives a two-dimensional tensor of shape
`(N, 4)`.  Results of indexing a 2-D tensor stay 2-D, so the `(0, 4)` tensor is
`t2d []`. -/
inductive BTensor
  | empty1d
  | t2d (bs : List Box)
  deriving DecidableEq

/-- Embedding of `torch.tensor(boxes)` applied to the python list built by
`_load_boxes`: an empty list yields the 1-D empty tensor. -/
def torchTensorOfBoxes (bs : List Box) : BTensor :=
  if bs.isEmpty then .empty1d else .t2d bs

/-- Fail-fast effectful map, modelling a python list comprehension whose body
may raise: elements are processed left to right and the first exception
propagates. -/
def emapM (f : β → Except PyErr γ) : List β → Except PyErr (List γ)
  | [] => .ok []
  | x :: xs =>
    match f x with
    | .error e => .error e
    | .ok y =>
      match emapM f xs with
      | .error e => .error e
      | .ok ys => .ok (y :: ys)

/-- Advanced indexing `t[indices]` of a 1-D tensor (or of the rows of a 2-D
tensor) by a tensor of indices: out-of-range indices raise `IndexError`. -/
def gather (l : List γ) (idxs : List Nat) : Except PyErr (List γ) :=
  emapM (fun i =>
    match l[i]? with
    | some a => .ok a
    | none => .error .indexError) idxs

/-- Embedding of `torch.where(mask)[0]`: the positions of the `true` entries of
a boolean mask, in increasing order. -/
def trueIndices : List Bool → List Nat
  | [] => []
  | b :: ms =>
    if b then 0 :: (trueIndices ms).map (· + 1) else (trueIndices ms).map (· + 1)

/-- Select the entries of a list at the `true` positions of a parallel mask. -/
def selectMask : List Bool → List γ → List γ
  | true :: ms, a :: as => a :: selectMask ms as
  | false :: ms, _ :: as => selectMask ms as
  | _, _ => []

/-- The keep predicate of torchvision `remove_small_boxes`:
`keep = (ws >= min_size) & (hs >= min_size)` with `ws = x2 - x1`,
`hs = y2 - y1`. -/
def keepBox (minSize : Int) (b : Box) : Bool :=
  decide (minSize ≤ b.xmax - b.xmin) && decide (minSize ≤ b.ymax - b.ymin)

/-- Clamping of one box of torchvision `clip_boxes_to_image` with
`size = (height, width)`: x coordinates are clamped to `[0, width]` and y
coordinates to `[0, height]` (`clamp(min=0, max=width)` and
`clamp(min=0, max=height)`). -/
def clipBox (sz : Int × Int) (b : Box) : Box :=
  { xmin := min (max b.xmin 0) sz.2
    ymin := min (max b.ymin 0) sz.1
    xmax := min (max b.xmax 0) sz.2
    ymax := min (max b.ymax 0) sz.1 }

/-- torchvision `clip_boxes_to_image` on the box tensor.  On the 1-D empty
tensor it succeeds and returns the tensor unchanged (the slices `[..., 0::2]`
and `[..., 1::2]` are empty). -/
def clipBoxesToImage (sz : Int × Int) : BTensor → BTensor
  | .empty1d => .empty1d
  | .t2d bs => .t2d (bs.map (clipBox sz))

/-- torchvision `remove_small_boxes`: the kept row indices of a 2-D box tensor.
On a 1-D tensor the expression `boxes[:, 2]` raises
`IndexError: too many indices for tensor of dimension 1`. -/
def removeSmallBoxes (minSize : Int) : BTensor → Except PyErr (List Nat)
  | .empty1d => .error .indexError
  | .t2d bs => .ok (trueIndices (bs.map (keepBox minSize)))

/-- Embedding of `IDTReeS._filter_boxes`: clip the boxes to the image, compute
the kept indices with `remove_small_boxes`, and index boxes (and labels, when
present) by those indices. -/
def filterBoxes (sz : Int × Int) (minSize : Int) (boxes : BTensor)
    (labels : Option (List γ)) : Except PyErr (BTensor × Option (List γ)) :=
  match removeSmallBoxes minSize (clipBoxesToImage sz boxes),
        clipBoxesToImage sz boxes with
  | .error e, _ => .error e
  | .ok _, .empty1d => .error .indexError
  | .ok idxs, .t2d bs =>
    match gather bs idxs with
    | .error e => .error e
    | .ok bs' =>
      match labels with
      | none => .ok (.t2d bs', none)
      | some ls =>
        match gather ls idxs with
        | .error e => .error e
        | .ok ls' => .ok (.t2d bs', some ls')

/-- The 33 species codes, in the insertion order of the `IDTReeS.classes`
dict literal (python dicts preserve insertion order, so `enumerate(self.classes)`
enumerates the keys in this order). -/
def classCodes : List String :=
  ["ACPE", "ACRU", "ACSA3", "AMLA", "BETUL", "CAGL8", "CATO6", "FAGR",
   "GOLA", "LITU", "LYLU3", "MAGNO", "NYBI", "NYSY", "OXYDE", "PEPA37",
   "PIEL", "PIPA2", "PINUS", "PITA", "PRSE2", "QUAL", "QUCO2", "QUGE2",
   "QUHE2", "QULA2", "QULA3", "QUMO4", "QUNI", "QURU", "QUERC", "ROPS",
   "TSCA"]

/-- Position of the first occurrence of a string in a list, counting from `i`. -/
def lookupIdx : List String → Nat → String → Option Nat
  | [], _, _ => none
  | x :: xs, i, c => if x = c then some i else lookupIdx xs (i + 1) c

/-- Embedding of `self.class2idx = {c: i for i, c in enumerate(self.classes)}`,
as a lookup: `none` models a `KeyError` on access. -/
def class2idx (c : String) : Option Nat :=
  lookupIdx classCodes 0 c

/-- Embedding of `self.idx2class = {i: c for i, c in enumerate(self.classes)}`. -/
def idx2class (i : Nat) : Option String :=
  classCodes[i]?

/-- Embedding of `self.num_classes = len(self.classes)`. -/
def num_classes : Nat :=
  classCodes.length

/-- One row of the joined, duplicate-removed annotation table built by
`_load_labels` (only the columns the loaders read: `rsFile`, `taxonID`, `id`). -/
structure Row where
  rsFile : String
  taxonID : String
  id : Int
  deriving DecidableEq

/-- One fiona feature: `properties['plotID']` (used for the test split
scene match) and `geometry['coordinates']` (a list of rings of coordinate
points of some abstract coordinate type `α`). -/
structure Feature (α : Type) where
  plotID : String
  rings : List (List α)
  deriving DecidableEq

/-- Embedding of `geometries[i]['geometry']['coordinates'][0][:4]`: the first
ring, truncated to its first four points.  Indexing `[0]` of an empty
coordinate list raises `IndexError`. -/
def take4Ring (f : Feature α) : Except PyErr (List α) :=
  match f.rings with
  | [] => .error .indexError
  | r :: _ => .ok (r.take 4)

/-- Embedding of the per-geometry pixel-box computation in `_load_boxes`:
`coords = [f.index(x, y) for x, y in geom]` produces `(row, col)` pairs, and
the box is `[min col, min row, max col, max row]`.  Python `min`/`max` over an
empty sequence raise `ValueError`. -/
def boxFromCoords (pts : List (Int × Int)) : Except PyErr Box :=
  match pts with
  | [] => .error .valueError
  | p :: ps =>
    .ok { xmin := ps.foldl (fun m q => min m q.2) p.2
          ymin := ps.foldl (fun m q => min m q.1) p.1
          xmax := ps.foldl (fun m q => max m q.2) p.2
          ymax := ps.foldl (fun m q => max m q.1) p.1 }

/-- The rows of the annotation table whose `rsFile` column equals the scene
basename: `indices = self.labels['rsFile'] == base_path` followed by
`self.labels[indices]`. -/
def matchingRows (labels : List Row) (base : String) : List Row :=
  labels.filter (fun r => r.rsFile == base)

/-- Lookup `geometries[i]` (a `KeyError` when the id is absent) followed by
`['geometry']['coordinates'][0][:4]`. -/
def geomRing4 (geoms : Int → Option (Feature α)) (i : Int) :
    Except PyErr (List α) :=
  match geoms i with
  | none => .error .keyError
  | some f => take4Ring f

/-- Embedding of `_load_boxes` for the train split: the ids come from the rows
of the annotation table matching the scene basename, the geometry corner lists
are gathered first, then every corner list is projected (`f.index`) and reduced
to a pixel box. -/
def loadBoxesTrain (labels : List Row) (geoms : Int → Option (Feature α))
    (index : α → Int × Int) (base : String) : Except PyErr (List Box) :=
  match emapM (geomRing4 geoms)
      ((matchingRows labels base).map (fun r => r.id)) with
  | .error e => .error e
  | .ok gs => emapM (fun g => boxFromCoords (g.map index)) gs

/-- Embedding of `_load_boxes` for the test split: the geometries whose
`properties['plotID']` equals the scene basename, in dict insertion order. -/
def loadBoxesTest (testGeoms : List (Feature α)) (index : α → Int × Int)
    (base : String) : Except PyErr (List Box) :=
  match emapM take4Ring (testGeoms.filter (fun f => f.plotID == base)) with
  | .error e => .error e
  | .ok gs => emapM (fun g => boxFromCoords (g.map index)) gs

/-- Embedding of `_load_target`: the `taxonID` of every matching row, pushed
through `self.class2idx[c]` (a `KeyError` when the code is unknown). -/
def loadTarget (labels : List Row) (base : String) : Except PyErr (List Nat) :=
  emapM (fun r =>
    match class2idx r.taxonID with
    | some i => .ok i
    | none => .error .keyError) (matchingRows labels base)

/-- The pixel box derived for one annotation row: geometry lookup by the row
id, first ring truncated to four points, projection to pixel coordinates, and
axis-aligned bounds. -/
def rowBox (geoms : Int → Option (Feature α)) (index : α → Int × Int)
    (r : Row) : Except PyErr Box :=
  match geomRing4 geoms r.id with
  | .error e => .error e
  | .ok g => boxFromCoords (g.map index)

/-- Whether an annotation row contributes a box that survives the box filter
of `__getitem__`: its derived box, once clipped to the image, must have width
and height at least 1. -/
def survivesRow (sz : Int × Int) (geoms : Int → Option (Feature α))
    (index : α → Int × Int) (r : Row) : Bool :=
  match rowBox geoms index r with
  | .ok b => keepBox 1 (clipBox sz b)
  | .error _ => false

/-- Number of box rows of a box tensor, when the tensor is 2-D. -/
def boxCount : BTensor → Option Nat
  | .empty1d => none
  | .t2d bs => some bs.length

inductive Split
  | train
  | test
  deriving DecidableEq

inductive Task
  | task1
  | task2
  deriving DecidableEq

/-- The dict returned by `__getitem__` (before any user transform).  The four
modality tensors are opaque values of a type `τ`; `boxes` and `label` are
`none` exactly when the corresponding dict key is absent. -/
structure Sample (τ : Type) where
  image : τ
  hsi : τ
  chm : τ
  las : τ
  boxes : Option BTensor
  label : Option (List Nat)
  deriving DecidableEq

/-- Embedding of `IDTReeS.__getitem__` (before the optional user transform).
`image`, `hsi`, `chm`, `las` are the loaded modality tensors, `h`/`w` the
spatial shape `sample['image'].shape[1:]` of the loaded image (the code
resamples every image to `image_size = (200, 200)`), `labels` the joined
annotation table, `geoms` the train geometry dict, `testGeoms` the test
geometry dict in insertion order, `index` the raster geographic-to-pixel
transform `f.index`, and `base` the scene RGB basename. -/
def getitem (split : Split) (task : Task) (image hsi chm las : τ) (h w : Nat)
    (labels : List Row) (geoms : Int → Option (Feature α))
    (testGeoms : List (Feature α)) (index : α → Int × Int) (base : String) :
    Except PyErr (Sample τ) :=
  match split with
  | .test =>
    match task with
    | .task1 => .ok ⟨image, hsi, chm, las, none, none⟩
    | .task2 =>
      match loadBoxesTest testGeoms index base with
      | .error e => .error e
      | .ok bs =>
        match filterBoxes ((h : Int), (w : Int)) 1 (torchTensorOfBoxes bs)
            (none : Option (List Nat)) with
        | .error e => .error e
        | .ok (b, _) => .ok ⟨image, hsi, chm, las, some b, none⟩
  | .train =>
    match loadBoxesTrain labels geoms index base with
    | .error e => .error e
    | .ok bs =>
      match loadTarget labels base with
      | .error e => .error e
      | .ok ls =>
        match filterBoxes ((h : Int), (w : Int)) 1 (torchTensorOfBoxes bs)
            (some ls) with
        | .error e => .error e
        | .ok (b, l) => .ok ⟨image, hsi, chm, las, some b, l⟩

/-- One entry of the `IDTReeS.metadata` dict. -/
structure ArchiveMeta where
  url : String
  md5 : String
  filename : String
  deriving DecidableEq

/-- Embedding of the `IDTReeS.metadata` class attribute. -/
def metadata : Split → ArchiveMeta
  | .train =>
    { url := "https://zenodo.org/record/3934932/files/IDTREES_competition_train_v2.zip?download=1"
      md5 := "5ddfa76240b4bb6b4a7861d1d31c299c"
      filename := "IDTREES_competition_train_v2.zip" }
  | .test =>
    { url := "https://zenodo.org/record/3934932/files/IDTREES_competition_test_v2.zip?download=1"
      md5 := "b108931c84a70f2a38a8234290131c9b"
      filename := "IDTREES_competition_test_v2.zip" }

/-- Embedding of the `IDTReeS.directories` class attribute. -/
def directories : Split → List String
  | .train => ["train"]
  | .test => ["task1", "task2"]

/-- The filesystem as seen by `_verify`, reduced to the `os.path.exists`
queries it makes. -/
structure FS where
  pathExists : String → Bool

/-- Embedding of `os.path.join` for the two-component joins `_verify` makes. -/
def joinPath (a b : String) : String :=
  a ++ "/" ++ b

/-- Embedding of `all(exists)` over
`[os.path.exists(os.path.join(self.root, directory)) for directory in directories]`. -/
def dirsExist (split : Split) (root : String) (fs : FS) : Bool :=
  ((directories split).map (fun d => fs.pathExists (joinPath root d))).all
    (fun b => b)

/-- The observable outcome of `_verify`: return with the data already present,
extract an existing archive, raise `DatasetNotFoundError`, or download (with
`md5` checked only when the checksum flag is set) and extract. -/
inductive VerifyAction
  | alreadyDone
  | extractArchive (filepath : String)
  | raiseNotFound
  | downloadAndExtract (url : String) (root : String) (filename : String)
      (md5 : Option String)
  deriving DecidableEq

/-- Embedding of `IDTReeS._verify`. -/
def verify (split : Split) (root : String) (download checksum : Bool)
    (fs : FS) : VerifyAction :=
  let md := metadata split
  if dirsExist split root fs then
    .alreadyDone
  else if fs.pathExists (joinPath root md.filename) then
    .extractArchive (joinPath root md.filename)
  else if download = false then
    .raiseNotFound
  else
    .downloadAndExtract md.url root md.filename
      (if checksum then some md.md5 else none)

/-- A root directory containing nothing at all. -/
def emptyFS : FS :=
  ⟨fun _ => false⟩

/-- Modelled from the spec: `extract_archive` (in `torchgeo.datasets.utils`,
not under the sources given here) successfully extracting the split archive
produces the expected split subdirectories under the root, leaving every other
path as it was. -/
def extractEffect (root : String) (split : Split) (fs : FS) : FS :=
  ⟨fun p => fs.pathExists p || (directories split).any
    (fun d => joinPath root d == p)⟩

theorem emapM_length {f : β → Except PyErr γ} :
    ∀ {xs : List β} {ys : List γ}, emapM f xs = .ok ys → ys.length = xs.length := by
  intro xs
  induction xs with
  | nil =>
    intro ys h
    simp only [emapM, Except.ok.injEq] at h
    simp [← h]
  | cons x xs ih =>
    intro ys h
    simp only [emapM] at h
    cases hfx : f x with
    | error e => simp [hfx] at h
    | ok y =>
      simp only [hfx] at h
      cases hxs : emapM f xs with
      | error e => simp [hxs] at h
      | ok ys2 =>
        simp only [hxs, Except.ok.injEq] at h
        subst h
        simp [ih hxs]

theorem emapM_map {f : γ → Except PyErr δ} {g : β → γ} :
    ∀ (xs : List β), emapM f (xs.map g) = emapM (fun x => f (g x)) xs := by
  intro xs
  induction xs with
  | nil => rfl
  | cons x xs ih => simp only [List.map_cons, emapM, ih]

theorem emapM_ok_mem {f : β → Except PyErr γ} :
    ∀ {xs : List β} {ys : List γ}, emapM f xs = .ok ys →
      ∀ y ∈ ys, ∃ x ∈ xs, f x = .ok y := by
  intro xs
  induction xs with
  | nil =>
    intro ys h
    simp only [emapM, Except.ok.injEq] at h
    simp [← h]
  | cons x xs ih =>
    intro ys h
    simp only [emapM] at h
    cases hfx : f x with
    | error e => simp [hfx] at h
    | ok y =>
      simp only [hfx] at h
      cases hxs : emapM f xs with
      | error e => simp [hxs] at h
      | ok ys2 =>
        simp only [hxs, Except.ok.injEq] at h
        subst h
        intro z hz
        rcases List.mem_cons.mp hz with hz | hz
        · exact ⟨x, List.mem_cons_self x xs, by rw [hfx, hz]⟩
        · rcases ih hxs z hz with ⟨x2, hx2, hfx2⟩
          exact ⟨x2, List.mem_cons_of_mem x hx2, hfx2⟩

theorem emapM_countP {f : β → Except PyErr γ} {p : γ → Bool} :
    ∀ {xs : List β} {ys : List γ}, emapM f xs = .ok ys →
      ys.countP p = xs.countP (fun x =>
        match f x with
        | .ok y => p y
        | .error _ => false) := by
  intro xs
  induction xs with
  | nil =>
    intro ys h
    simp only [emapM, Except.ok.injEq] at h
    simp [← h]
  | cons x xs ih =>
    intro ys h
    simp only [emapM] at h
    cases hfx : f x with
    | error e => simp [hfx] at h
    | ok y =>
      simp only [hfx] at h
      cases hxs : emapM f xs with
      | error e => simp [hxs] at h
      | ok ys2 =>
        simp only [hxs, Except.ok.injEq] at h
        subst h
        simp only [List.countP_cons, ih hxs, hfx]

theorem emapM_comp_ok {f : β → Except PyErr γ} {g : γ → Except PyErr δ} :
    ∀ {xs : List β} {ys : List γ} {zs : List δ},
      emapM f xs = .ok ys → emapM g ys = .ok zs →
      emapM (fun x =>
        match f x with
        | .error e => .error e
        | .ok y => g y) xs = .ok zs := by
  intro xs
  induction xs with
  | nil =>
    intro ys zs h1 h2
    simp only [emapM, Except.ok.injEq] at h1
    subst h1
    simpa [emapM] using h2
  | cons x xs ih =>
    intro ys zs h1 h2
    simp only [emapM] at h1
    cases hfx : f x with
    | error e => simp [hfx] at h1
    | ok y =>
      simp only [hfx] at h1
      cases hxs : emapM f xs with
      | error e => simp [hxs] at h1
      | ok ys2 =>
        simp only [hxs, Except.ok.injEq] at h1
        subst h1
        simp only [emapM] at h2
        cases hgy : g y with
        | error e => simp [hgy] at h2
        | ok z =>
          simp only [hgy] at h2
          cases hys2 : emapM g ys2 with
          | error e => simp [hys2] at h2
          | ok zs2 =>
            simp only [hys2, Except.ok.injEq] at h2
            subst h2
            simp only [emapM, hfx, hgy, ih hxs hys2]

theorem emapM_congr {f g : β → Except PyErr γ} :
    ∀ {xs : List β}, (∀ x ∈ xs, f x = g x) → emapM f xs = emapM g xs := by
  intro xs
  induction xs with
  | nil => intro _; rfl
  | cons x xs ih =>
    intro h
    simp only [emapM, h x (List.mem_cons_self x xs),
      ih (fun y hy => h y (List.mem_cons_of_mem x hy))]

theorem gather_cons_map_succ (a : γ) (l : List γ) :
    ∀ (idxs : List Nat), gather (a :: l) (idxs.map (· + 1)) = gather l idxs := by
  intro idxs
  induction idxs with
  | nil => rfl
  | cons i idxs ih =>
    simp only [gather, List.map_cons, emapM, List.getElem?_cons_succ] at *
    rw [ih]

theorem gather_ok_length {l : List γ} {idxs : List Nat} {ys : List γ}
    (h : gather l idxs = .ok ys) : ys.length = idxs.length :=
  emapM_length h

theorem gather_ok_mem {l : List γ} {idxs : List Nat} {ys : List γ}
    (h : gather l idxs = .ok ys) : ∀ y ∈ ys, y ∈ l := by
  intro y hy
  rcases emapM_ok_mem h y hy with ⟨i, _, hfi⟩
  cases hli : l[i]? with
  | none => simp [hli] at hfi
  | some a =>
    simp only [hli, Except.ok.injEq] at hfi
    subst hfi
    exact List.getElem?_mem hli

theorem gather_trueIndices :
    ∀ (mask : List Bool) (l : List γ), mask.length = l.length →
      gather l (trueIndices mask) = .ok (selectMask mask l) := by
  intro mask
  induction mask with
  | nil =>
    intro l hl
    cases l with
    | nil => rfl
    | cons a as => simp at hl
  | cons b ms ih =>
    intro l hl
    cases l with
    | nil => simp at hl
    | cons a as =>
      simp only [List.length_cons, Nat.succ.injEq] at hl
      cases b with
      | true =>
        simp only [trueIndices, if_pos rfl, selectMask]
        show gather (a :: as) (0 :: (trueIndices ms).map (· + 1)) = _
        simp only [gather, emapM, List.getElem?_cons_zero]
        rw [show emapM (fun i =>
            match (a :: as)[i]? with
            | some x => Except.ok x
            | none => Except.error PyErr.indexError)
            ((trueIndices ms).map (· + 1)) =
            gather (a :: as) ((trueIndices ms).map (· + 1)) from rfl]
        rw [gather_cons_map_succ, ih as hl]
      | false =>
        simp only [trueIndices, Bool.false_eq_true, if_false, selectMask]
        rw [show gather (a :: as) ((trueIndices ms).map (· + 1)) =
            gather as (trueIndices ms) from gather_cons_map_succ a as _]
        exact ih as hl

theorem selectMask_map_filter (p : γ → Bool) :
    ∀ (l : List γ), selectMask (l.map p) l = l.filter p := by
  intro l
  induction l with
  | nil => rfl
  | cons a as ih =>
    simp only [List.map_cons]
    cases hpa : p a with
    | true => simp [selectMask, ih, List.filter_cons, hpa]
    | false => simp [selectMask, ih, List.filter_cons, hpa]

theorem clipBox_idem (sz : Int × Int) (b : Box) :
    clipBox sz (clipBox sz b) = clipBox sz b := by
  simp only [clipBox, Box.mk.injEq]
  omega

theorem trueIndices_replicate : ∀ (n : Nat),
    trueIndices (List.replicate n true) = List.range n := by
  intro n
  induction n with
  | zero => rfl
  | succ n ih =>
    rw [List.replicate_succ, List.range_succ_eq_map]
    simp only [trueIndices, if_pos rfl, ih]
    rfl

theorem map_eq_replicate_true {p : γ → Bool} :
    ∀ {l : List γ}, (∀ x ∈ l, p x = true) →
      l.map p = List.replicate l.length true := by
  intro l
  induction l with
  | nil => intro _; rfl
  | cons a as ih =>
    intro h
    simp only [List.map_cons, List.length_cons, List.replicate_succ]
    rw [h a (List.mem_cons_self a as), ih (fun x hx => h x (List.mem_cons_of_mem a hx))]

theorem gather_range : ∀ (l : List γ), gather l (List.range l.length) = .ok l := by
  intro l
  induction l with
  | nil => rfl
  | cons a as ih =>
    rw [List.length_cons, List.range_succ_eq_map]
    show gather (a :: as) (0 :: (List.range as.length).map (· + 1)) = _
    simp only [gather, emapM, List.getElem?_cons_zero]
    rw [show emapM (fun i =>
        match (a :: as)[i]? with
        | some x => Except.ok x
        | none => Except.error PyErr.indexError)
        ((List.range as.length).map (· + 1)) =
        gather (a :: as) ((List.range as.length).map (· + 1)) from rfl]
    rw [gather_cons_map_succ, ih]

theorem filterBoxes_t2d_some {sz : Int × Int} {m : Int} {bs : List Box}
    {ls : List γ} (hlen : ls.length = bs.length) :
    filterBoxes sz m (.t2d bs) (some ls) =
      .ok (.t2d ((bs.map (clipBox sz)).filter (keepBox m)),
           some (selectMask ((bs.map (clipBox sz)).map (keepBox m)) ls)) := by
  have hmask : ((bs.map (clipBox sz)).map (keepBox m)).length =
      (bs.map (clipBox sz)).length := by simp
  have hmask2 : ((bs.map (clipBox sz)).map (keepBox m)).length = ls.length := by
    simp [hlen]
  simp only [filterBoxes, clipBoxesToImage, removeSmallBoxes]
  rw [gather_trueIndices _ _ hmask, gather_trueIndices _ _ hmask2]
  rw [selectMask_map_filter]

theorem filterBoxes_t2d_none {sz : Int × Int} {m : Int} {bs : List Box} :
    filterBoxes sz m (.t2d bs) (none : Option (List γ)) =
      .ok (.t2d ((bs.map (clipBox sz)).filter (keepBox m)),
           none) := by
  have hmask : ((bs.map (clipBox sz)).map (keepBox m)).length =
      (bs.map (clipBox sz)).length := by simp
  simp only [filterBoxes, clipBoxesToImage, removeSmallBoxes]
  rw [gather_trueIndices _ _ hmask]
  rw [selectMask_map_filter]

theorem lookupIdx_lt :
    ∀ (l : List String) (i : Nat) (c : String) (j : Nat),
      lookupIdx l i c = some j → j < i + l.length := by
  intro l
  induction l with
  | nil => intro i c j h; simp [lookupIdx] at h
  | cons x xs ih =>
    intro i c j h
    simp only [lookupIdx] at h
    by_cases hx : x = c
    · rw [if_pos hx] at h
      simp only [Option.some.injEq] at h
      subst h
      simp
    · rw [if_neg hx] at h
      have := ih (i + 1) c j h
      simp only [List.length_cons]
      omega

theorem lookupIdx_none_of_not_mem :
    ∀ (l : List String) (i : Nat) (c : String), c ∉ l → lookupIdx l i c = none := by
  intro l
  induction l with
  | nil => intro i c _; rfl
  | cons x xs ih =>
    intro i c hc
    have hx : x ≠ c := fun h => hc (by rw [← h]; exact List.mem_cons_self x xs)
    have hxs : c ∉ xs := fun h => hc (List.mem_cons_of_mem _ h)
    simp only [lookupIdx, if_neg hx]
    exact ih (i + 1) c hxs

theorem map_eq_self_of_mem {f : γ → γ} :
    ∀ {l : List γ}, (∀ x ∈ l, f x = x) → l.map f = l := by
  intro l
  induction l with
  | nil => intro _; rfl
  | cons a as ih =>
    intro h
    simp only [List.map_cons, h a (List.mem_cons_self a as),
      ih (fun x hx => h x (List.mem_cons_of_mem a hx))]

theorem selectMask_replicate_true :
    ∀ (l : List γ), selectMask (List.replicate l.length true) l = l := by
  intro l
  induction l with
  | nil => rfl
  | cons a as ih =>
    simp only [List.length_cons, List.replicate_succ, selectMask, ih]

theorem selectMask_length :
    ∀ (mask : List Bool) (l : List γ), mask.length = l.length →
      (selectMask mask l).length = mask.countP (fun b => b) := by
  intro mask
  induction mask with
  | nil =>
    intro l h
    cases l with
    | nil => rfl
    | cons a as => simp at h
  | cons b ms ih =>
    intro l h
    cases l with
    | nil => simp at h
    | cons a as =>
      simp only [List.length_cons, Nat.succ.injEq] at h
      cases b with
      | true => simp [selectMask, List.countP_cons, ih as h]
      | false => simp [selectMask, List.countP_cons, ih as h]

/-- C1: on an `[N, 4]` box tensor with a parallel label tensor of length `N`,
`_filter_boxes` returns exactly the clipped boxes whose clipped width and
height are both at least `min_size` (removing exactly those whose clipped
width or height is strictly smaller), and applies the same keep-mask to the
labels. -/
theorem c1_filter_removes_exactly_small (h w m : Int) (bs : List Box)
    (ls : List γ) (hlen : ls.length = bs.length) :
    filterBoxes (h, w) m (.t2d bs) (some ls) =
      .ok (.t2d ((bs.map (clipBox (h, w))).filter (keepBox m)),
           some (selectMask ((bs.map (clipBox (h, w))).map (keepBox m)) ls)) ∧
    ∀ b : Box, keepBox m b = false ↔
      (b.xmax - b.xmin < m ∨ b.ymax - b.ymin < m) := by
  refine ⟨filterBoxes_t2d_some hlen, ?_⟩
  intro b
  simp only [keepBox, Bool.and_eq_false_iff, decide_eq_false_iff_not]
  omega

/-- Witness for C1 at a concrete input: the first box is clipped and kept, the
second has clipped width 0 so it is removed together with its label. -/
theorem c1_witness :
    filterBoxes (200, 200) 1
        (.t2d [⟨-10, -10, 50, 60⟩, ⟨0, 0, 0, 5⟩]) (some [(7 : Nat), 8]) =
      .ok (.t2d [⟨0, 0, 50, 60⟩], some [7]) := by
  exact (c1_filter_removes_exactly_small 200 200 1
    [⟨-10, -10, 50, 60⟩, ⟨0, 0, 0, 5⟩] ([7, 8] : List Nat) rfl).1

/-- C3 as stated fails: `clip_boxes_to_image` clamps x into the closed range
`[0, W]` and y into `[0, H]`, not into half-open ranges.  A box reaching past
the image is clipped to coordinate `W` itself, which is not strictly less
than `W`, and the box filter keeps it with that coordinate. -/
theorem c3_clip_halfopen_counterexample :
    clipBox (200, 200) ⟨-5, -5, 300, 300⟩ = ⟨0, 0, 200, 200⟩ ∧
    filterBoxes (200, 200) 1 (.t2d [⟨-5, -5, 300, 300⟩])
        (none : Option (List Nat)) =
      .ok (.t2d [⟨0, 0, 200, 200⟩], none) ∧
    ¬ ((clipBox (200, 200) ⟨-5, -5, 300, 300⟩).xmax < 200) := by
  refine ⟨rfl, rfl, by decide⟩

/-- C3 amended: before the keep-mask is computed, `_filter_boxes` clips every
box coordinate into the closed ranges `[0, H]` for y and `[0, W]` for x. -/
theorem c3_clip_closed_bounds (h w : Int) (hh : 0 ≤ h) (hw : 0 ≤ w)
    (bs : List Box) :
    clipBoxesToImage (h, w) (.t2d bs) = .t2d (bs.map (clipBox (h, w))) ∧
    ∀ b ∈ bs.map (clipBox (h, w)),
      0 ≤ b.xmin ∧ b.xmin ≤ w ∧ 0 ≤ b.xmax ∧ b.xmax ≤ w ∧
      0 ≤ b.ymin ∧ b.ymin ≤ h ∧ 0 ≤ b.ymax ∧ b.ymax ≤ h := by
  refine ⟨rfl, ?_⟩
  intro b hb
  rcases List.mem_map.mp hb with ⟨b0, _, rfl⟩
  simp only [clipBox]
  omega

/-- Witness for C3 amended at a concrete image size and box. -/
theorem c3_witness :
    clipBoxesToImage (200, 200) (.t2d [⟨-5, 300, 700, -9⟩]) =
      .t2d [⟨0, 200, 200, 0⟩] ∧
    (0 ≤ (0 : Int) ∧ (0 : Int) ≤ 200 ∧ 0 ≤ (200 : Int) ∧ (200 : Int) ≤ 200 ∧
     0 ≤ (200 : Int) ∧ (200 : Int) ≤ 200 ∧ 0 ≤ (0 : Int) ∧ (0 : Int) ≤ 200) :=
  ⟨(c3_clip_closed_bounds 200 200 (by decide) (by decide) [⟨-5, 300, 700, -9⟩]).1,
   (c3_clip_closed_bounds 200 200 (by decide) (by decide) [⟨-5, 300, 700, -9⟩]).2
     ⟨0, 200, 200, 0⟩ (by decide)⟩

/-- C4: `_filter_boxes` is idempotent — feeding its own output back with the
same image size and minimum size returns the output unchanged. -/
theorem c4_filter_idempotent (sz : Int × Int) (m : Int) (boxes : BTensor)
    (labels : Option (List γ)) (out : BTensor × Option (List γ))
    (hout : filterBoxes sz m boxes labels = .ok out) :
    filterBoxes sz m out.1 out.2 = .ok out := by
  cases boxes with
  | empty1d => simp [filterBoxes, clipBoxesToImage, removeSmallBoxes] at hout
  | t2d bs =>
    have hclip : ∀ x ∈ bs.map (clipBox sz), clipBox sz x = x := by
      intro x hx
      rcases List.mem_map.mp hx with ⟨b0, _, rfl⟩
      exact clipBox_idem sz b0
    have hgb : gather (bs.map (clipBox sz))
        (trueIndices ((bs.map (clipBox sz)).map (keepBox m))) =
        .ok ((bs.map (clipBox sz)).filter (keepBox m)) := by
      rw [gather_trueIndices _ _ (by simp), selectMask_map_filter]
    have hkeep : ∀ x ∈ (bs.map (clipBox sz)).filter (keepBox m),
        keepBox m x = true :=
      fun x hx => List.of_mem_filter hx
    have hmapclip : ((bs.map (clipBox sz)).filter (keepBox m)).map (clipBox sz)
        = (bs.map (clipBox sz)).filter (keepBox m) :=
      map_eq_self_of_mem (fun x hx => hclip x (List.mem_of_mem_filter hx))
    have hfself : ((bs.map (clipBox sz)).filter (keepBox m)).filter (keepBox m)
        = (bs.map (clipBox sz)).filter (keepBox m) :=
      List.filter_eq_self.mpr hkeep
    cases labels with
    | none =>
      rw [filterBoxes_t2d_none] at hout
      injection hout with hout2
      subst hout2
      rw [filterBoxes_t2d_none]
      simp only [hmapclip, hfself]
    | some ls =>
      cases hgl : gather ls
          (trueIndices ((bs.map (clipBox sz)).map (keepBox m))) with
      | error e =>
        simp only [filterBoxes, clipBoxesToImage, removeSmallBoxes, hgb,
          hgl] at hout
        exact Except.noConfusion hout
      | ok ls' =>
        simp only [filterBoxes, clipBoxesToImage, removeSmallBoxes, hgb, hgl,
          Except.ok.injEq] at hout
        subst hout
        have hlen' : ls'.length =
            ((bs.map (clipBox sz)).filter (keepBox m)).length :=
          (gather_ok_length hgl).trans (gather_ok_length hgb).symm
        rw [filterBoxes_t2d_some hlen']
        rw [hmapclip, hfself, map_eq_replicate_true hkeep, ← hlen',
          selectMask_replicate_true]

/-- Witness for C4: a successful filter output, refiltered, is unchanged. -/
theorem c4_witness :
    filterBoxes (200, 200) 1 (.t2d [⟨0, 0, 50, 60⟩]) (some [(3 : Nat)]) =
      .ok (.t2d [⟨0, 0, 50, 60⟩], some [3]) :=
  c4_filter_idempotent (200, 200) 1 (.t2d [⟨0, 0, 50, 60⟩]) (some [3])
    (.t2d [⟨0, 0, 50, 60⟩], some [3]) rfl

/-- C9: `_filter_boxes` keeps the clipped boxes as an in-order subsequence of
the clipped inputs, selects boxes and labels by the same mask, returns boxes
and labels of equal length, and never returns more boxes than it was given;
with or without labels the surviving boxes are the same. -/
theorem c9_filter_order_parallel (h w m : Int) (bs : List Box) (ls : List γ)
    (hlen : ls.length = bs.length) :
    ((bs.map (clipBox (h, w))).filter (keepBox m)).Sublist
        (bs.map (clipBox (h, w))) ∧
    filterBoxes (h, w) m (.t2d bs) (some ls) =
      .ok (.t2d ((bs.map (clipBox (h, w))).filter (keepBox m)),
           some (selectMask ((bs.map (clipBox (h, w))).map (keepBox m)) ls)) ∧
    filterBoxes (h, w) m (.t2d bs) (none : Option (List γ)) =
      .ok (.t2d ((bs.map (clipBox (h, w))).filter (keepBox m)), none) ∧
    ((bs.map (clipBox (h, w))).filter (keepBox m)).length =
      (selectMask ((bs.map (clipBox (h, w))).map (keepBox m)) ls).length ∧
    ((bs.map (clipBox (h, w))).filter (keepBox m)).length ≤ bs.length := by
  refine ⟨List.filter_sublist _, filterBoxes_t2d_some hlen,
    filterBoxes_t2d_none, ?_, ?_⟩
  · rw [selectMask_length _ _ (by simp [hlen])]
    simp only [← List.countP_eq_length_filter, List.countP_map]
    exact List.countP_congr (fun x _ => by simp [Function.comp])
  · calc ((bs.map (clipBox (h, w))).filter (keepBox m)).length
        ≤ (bs.map (clipBox (h, w))).length := List.length_filter_le _ _
      _ = bs.length := List.length_map _ _

/-- Witness for C9 at a concrete input with one surviving and one removed
box. -/
theorem c9_witness :
    ([(⟨0, 0, 5, 5⟩ : Box)]).Sublist [⟨0, 0, 5, 5⟩, ⟨2, 2, 2, 9⟩] ∧
    filterBoxes (200, 200) 1 (.t2d [⟨0, 0, 5, 5⟩, ⟨2, 2, 2, 9⟩])
        (some [(1 : Nat), 2]) = .ok (.t2d [⟨0, 0, 5, 5⟩], some [1]) ∧
    filterBoxes (200, 200) 1 (.t2d [⟨0, 0, 5, 5⟩, ⟨2, 2, 2, 9⟩])
        (none : Option (List Nat)) = .ok (.t2d [⟨0, 0, 5, 5⟩], none) ∧
    ([(⟨0, 0, 5, 5⟩ : Box)]).length = ([(1 : Nat)]).length ∧
    ([(⟨0, 0, 5, 5⟩ : Box)]).length ≤ 2 :=
  c9_filter_order_parallel 200 200 1 [⟨0, 0, 5, 5⟩, ⟨2, 2, 2, 9⟩] [1, 2] rfl

/-- C7: the species class index mapping is a bijection between the 33 codes
and the integers below 33: `class2idx` sends every code into `[0, 33)`,
`idx2class` inverts it on every code, and `class2idx` inverts `idx2class` on
every index below 33; `num_classes` is 33. -/
theorem c7_classes_bijection :
    num_classes = 33 ∧
    (∀ c ∈ classCodes, (class2idx c).bind idx2class = some c ∧
      ∃ i ∈ List.range 33, class2idx c = some i) ∧
    (∀ i < 33, (idx2class i).bind class2idx = some i) := by
  decide

/-- Witness for C7 at the last code and the first index. -/
theorem c7_witness :
    num_classes = 33 ∧ (class2idx "TSCA").bind idx2class = some "TSCA" ∧
      (idx2class 0).bind class2idx = some 0 :=
  ⟨c7_classes_bijection.1, (c7_classes_bijection.2.1 "TSCA" (by decide)).1,
   c7_classes_bijection.2.2 0 (by decide)⟩

/-- C2: `_verify` follows exactly the decision order of the code: silently
done when all expected split subdirectories exist; else extract the archive
when it exists at root; else raise the dataset-not-found error when download
is disabled; else download from the fixed URL (with the MD5 only when the
checksum flag is set) and extract.  Over an empty root with download disabled
it raises not-found, and after a successful extraction it is silently done. -/
theorem c2_verify_decision_order (split : Split) (root : String)
    (download checksum : Bool) (fs : FS) :
    (verify split root download checksum fs = .alreadyDone ↔
      dirsExist split root fs = true) ∧
    (verify split root download checksum fs =
        .extractArchive (joinPath root (metadata split).filename) ↔
      (dirsExist split root fs = false ∧
       fs.pathExists (joinPath root (metadata split).filename) = true)) ∧
    (verify split root download checksum fs = .raiseNotFound ↔
      (dirsExist split root fs = false ∧
       fs.pathExists (joinPath root (metadata split).filename) = false ∧
       download = false)) ∧
    (verify split root download checksum fs =
        .downloadAndExtract (metadata split).url root (metadata split).filename
          (if checksum then some (metadata split).md5 else none) ↔
      (dirsExist split root fs = false ∧
       fs.pathExists (joinPath root (metadata split).filename) = false ∧
       download = true)) ∧
    verify split root false checksum emptyFS = .raiseNotFound ∧
    verify split root download checksum (extractEffect root split fs) =
      .alreadyDone := by
  have hext : dirsExist split root (extractEffect root split fs) = true := by
    cases split <;> simp [dirsExist, directories, extractEffect, joinPath]
  have hempty : dirsExist split root emptyFS = false := by
    cases split <;> simp [dirsExist, directories, emptyFS]
  have hz : emptyFS.pathExists (joinPath root (metadata split).filename)
      = false := rfl
  have hnf : verify split root false checksum emptyFS = .raiseNotFound := by
    simp [verify, hempty, hz]
  have hdone : verify split root download checksum
      (extractEffect root split fs) = .alreadyDone := by
    simp [verify, hext]
  refine ⟨?_, ?_, ?_, ?_, hnf, hdone⟩ <;>
    by_cases h1 : dirsExist split root fs <;>
      by_cases h2 : fs.pathExists (joinPath root (metadata split).filename) <;>
        cases download <;> simp [verify, h1, h2]

theorem filterBoxes_some_label {sz : Int × Int} {m : Int} {bt : BTensor}
    {ls : List γ} {out : BTensor × Option (List γ)}
    (hf : filterBoxes sz m bt (some ls) = .ok out) : out.2.isSome = true := by
  cases bt with
  | empty1d => simp [filterBoxes, clipBoxesToImage, removeSmallBoxes] at hf
  | t2d bs =>
    simp only [filterBoxes, clipBoxesToImage, removeSmallBoxes] at hf
    cases hg1 : gather (bs.map (clipBox sz))
        (trueIndices ((bs.map (clipBox sz)).map (keepBox m))) with
    | error e =>
      simp only [hg1] at hf
      exact Except.noConfusion hf
    | ok bs' =>
      simp only [hg1] at hf
      cases hg2 : gather ls
          (trueIndices ((bs.map (clipBox sz)).map (keepBox m))) with
      | error e =>
        simp only [hg2] at hf
        exact Except.noConfusion hf
      | ok ls' =>
        simp only [hg2, Except.ok.injEq] at hf
        subst hf
        rfl

theorem filterBoxes_label_mem {sz : Int × Int} {m : Int} {bt : BTensor}
    {ls0 ls : List γ} {b : BTensor}
    (hf : filterBoxes sz m bt (some ls0) = .ok (b, some ls)) :
    ∀ v ∈ ls, v ∈ ls0 := by
  cases bt with
  | empty1d => simp [filterBoxes, clipBoxesToImage, removeSmallBoxes] at hf
  | t2d bs =>
    simp only [filterBoxes, clipBoxesToImage, removeSmallBoxes] at hf
    cases hg1 : gather (bs.map (clipBox sz))
        (trueIndices ((bs.map (clipBox sz)).map (keepBox m))) with
    | error e =>
      simp only [hg1] at hf
      exact Except.noConfusion hf
    | ok bs' =>
      simp only [hg1] at hf
      cases hg2 : gather ls0
          (trueIndices ((bs.map (clipBox sz)).map (keepBox m))) with
      | error e =>
        simp only [hg2] at hf
        exact Except.noConfusion hf
      | ok ls' =>
        simp only [hg2, Except.ok.injEq, Prod.mk.injEq,
          Option.some.injEq] at hf
        rcases hf with ⟨_, hf2⟩
        subst hf2
        exact gather_ok_mem hg2

theorem emapM_class_lookup_error :
    ∀ (rs : List Row), (∃ r ∈ rs, class2idx r.taxonID = none) →
      emapM (fun r =>
        match class2idx r.taxonID with
        | some i => Except.ok i
        | none => Except.error PyErr.keyError) rs = .error .keyError := by
  intro rs
  induction rs with
  | nil =>
    intro hex
    rcases hex with ⟨r, hr, _⟩
    cases hr
  | cons x xs ih =>
    intro hex
    simp only [emapM]
    cases hx : class2idx x.taxonID with
    | none => rfl
    | some i =>
      rcases hex with ⟨r, hr, hcr⟩
      rcases List.mem_cons.mp hr with h | h
      · subst h
        rw [hx] at hcr
        exact Option.noConfusion hcr
      · rw [ih ⟨r, h, hcr⟩]

theorem loadTarget_keyError {labels : List Row} {base : String}
    (hex : ∃ r ∈ matchingRows labels base, class2idx r.taxonID = none) :
    loadTarget labels base = .error .keyError :=
  emapM_class_lookup_error (matchingRows labels base) hex

/-- C5: for a train-split scene, when `__getitem__` returns a Sample its box
tensor holds exactly as many boxes as there are rows of the joined,
duplicate-removed annotation table whose `rsFile` equals the scene basename
and whose derived box survives the box filter, and the label tensor has that
same length. -/
theorem c5_train_box_count {τ α : Type} (task : Task) (image hsi chm las : τ)
    (h w : Nat) (labels : List Row) (geoms : Int → Option (Feature α))
    (testGeoms : List (Feature α)) (index : α → Int × Int) (base : String)
    (s : Sample τ)
    (hok : getitem Split.train task image hsi chm las h w labels geoms
      testGeoms index base = .ok s) :
    s.boxes.bind boxCount =
      some ((matchingRows labels base).countP
        (survivesRow ((h : Int), (w : Int)) geoms index)) ∧
    s.label.map List.length = s.boxes.bind boxCount := by
  simp only [getitem] at hok
  cases hbs : loadBoxesTrain labels geoms index base with
  | error e =>
    simp only [hbs] at hok
    exact Except.noConfusion hok
  | ok bs0 =>
    simp only [hbs] at hok
    cases hls : loadTarget labels base with
    | error e =>
      simp only [hls] at hok
      exact Except.noConfusion hok
    | ok ls0 =>
      simp only [hls] at hok
      have hfuse : emapM (rowBox geoms index) (matchingRows labels base) =
          .ok bs0 := by
        unfold loadBoxesTrain at hbs
        cases hg : emapM (geomRing4 geoms)
            ((matchingRows labels base).map (fun r => r.id)) with
        | error e =>
          simp only [hg] at hbs
          exact Except.noConfusion hbs
        | ok gs =>
          simp only [hg] at hbs
          rw [emapM_map] at hg
          refine (emapM_congr (fun r _ => ?_)).trans (emapM_comp_ok hg hbs)
          cases hgr : geomRing4 geoms r.id <;> simp [rowBox, hgr]
      have hlen0 : bs0.length = (matchingRows labels base).length :=
        emapM_length hfuse
      have hlenls : ls0.length = (matchingRows labels base).length :=
        emapM_length hls
      cases bs0 with
      | nil =>
        simp [torchTensorOfBoxes, filterBoxes, clipBoxesToImage,
          removeSmallBoxes] at hok
      | cons b0 bs1 =>
        have hten : torchTensorOfBoxes (b0 :: bs1) = .t2d (b0 :: bs1) := rfl
        rw [hten] at hok
        have hlenEq : ls0.length = (b0 :: bs1).length := by
          rw [hlenls, ← hlen0]
        simp only [filterBoxes_t2d_some hlenEq] at hok
        injection hok with h2
        subst h2
        have hcount :
            (((b0 :: bs1).map (clipBox ((h : Int), (w : Int)))).filter
              (keepBox 1)).length =
            (matchingRows labels base).countP
              (survivesRow ((h : Int), (w : Int)) geoms index) := by
          rw [← List.countP_eq_length_filter, List.countP_map]
          rw [emapM_countP hfuse]
          exact List.countP_congr (fun r _ => by
            unfold survivesRow
            cases rowBox geoms index r <;> simp [Function.comp])
        have hlab :
            (selectMask (((b0 :: bs1).map
              (clipBox ((h : Int), (w : Int)))).map (keepBox 1)) ls0).length =
            (((b0 :: bs1).map (clipBox ((h : Int), (w : Int)))).filter
              (keepBox 1)).length := by
          rw [selectMask_length _ _ (by simp [hlenEq]), List.countP_map,
            ← List.countP_eq_length_filter]
          exact List.countP_congr (fun x _ => by simp [Function.comp])
        exact ⟨congrArg some hcount, congrArg some hlab⟩

/-- Witness for C5: one matching annotation row with a surviving box gives a
Sample with one box and one label. -/
theorem c5_witness :
    (Sample.boxes ⟨(), (), (), (), some (.t2d [⟨0, 0, 80, 50⟩]),
        some [1]⟩).bind boxCount =
      some ((matchingRows [⟨"a.tif", "ACRU", 7⟩] "a.tif").countP
        (survivesRow (200, 200)
          (fun i => if i = 7 then
            some ⟨"", [[((0 : Int), (0 : Int)), (50, 80)]]⟩ else none)
          (fun p => p))) ∧
    (Sample.label ⟨(), (), (), (), some (.t2d [⟨0, 0, 80, 50⟩]),
        some [1]⟩).map List.length =
      (Sample.boxes ⟨(), (), (), (), some (.t2d [⟨0, 0, 80, 50⟩]),
        some [1]⟩).bind boxCount := by
  exact c5_train_box_count Task.task1 () () () () 200 200
    [⟨"a.tif", "ACRU", 7⟩]
    (fun i => if i = 7 then
      some ⟨"", [[((0 : Int), (0 : Int)), (50, 80)]]⟩ else none)
    [] (fun p => p) "a.tif"
    ⟨(), (), (), (), some (.t2d [⟨0, 0, 80, 50⟩]), some [1]⟩ rfl

/-- C6 evaluated on the code: for a train scene matching zero annotation rows
(and a test/task2 scene matching zero geometries) `__getitem__` raises
`IndexError` — `torch.tensor([])` has shape `(0,)` and `remove_small_boxes`
indexes it as 2-D — instead of returning a Sample with empty boxes/labels as
the spec states. -/
theorem c6_empty_scene_raises :
    getitem Split.train Task.task1 () () () () 200 200 ([] : List Row)
        (fun _ => (none : Option (Feature Unit))) []
        (fun _ => ((0 : Int), (0 : Int))) "a.tif" =
      .error PyErr.indexError ∧
    getitem Split.test Task.task2 () () () () 200 200 ([] : List Row)
        (fun _ => (none : Option (Feature Unit))) []
        (fun _ => ((0 : Int), (0 : Int))) "a.tif" =
      .error PyErr.indexError :=
  ⟨rfl, rfl⟩

/-- C8: the keys of a returned Sample depend only on split and task —
test/task1 has neither boxes nor label, test/task2 has boxes but no label,
train has both (all before any user transform). -/
theorem c8_sample_keys {τ α : Type} (image hsi chm las : τ) (h w : Nat)
    (labels : List Row) (geoms : Int → Option (Feature α))
    (testGeoms : List (Feature α)) (index : α → Int × Int) (base : String) :
    getitem Split.test Task.task1 image hsi chm las h w labels geoms testGeoms
        index base = .ok ⟨image, hsi, chm, las, none, none⟩ ∧
    (∀ s : Sample τ, getitem Split.test Task.task2 image hsi chm las h w
        labels geoms testGeoms index base = .ok s →
      s.boxes.isSome = true ∧ s.label = none) ∧
    (∀ (task : Task) (s : Sample τ), getitem Split.train task image hsi chm
        las h w labels geoms testGeoms index base = .ok s →
      s.boxes.isSome = true ∧ s.label.isSome = true) := by
  refine ⟨rfl, ?_, ?_⟩
  · intro s hok
    simp only [getitem] at hok
    cases hb : loadBoxesTest testGeoms index base with
    | error e =>
      simp only [hb] at hok
      exact Except.noConfusion hok
    | ok bs =>
      simp only [hb] at hok
      cases hf : filterBoxes ((h : Int), (w : Int)) 1 (torchTensorOfBoxes bs)
          (none : Option (List Nat)) with
      | error e =>
        simp only [hf] at hok
        exact Except.noConfusion hok
      | ok bl =>
        obtain ⟨b, l⟩ := bl
        simp only [hf] at hok
        injection hok with h2
        subst h2
        exact ⟨rfl, rfl⟩
  · intro task s hok
    simp only [getitem] at hok
    cases hbs : loadBoxesTrain labels geoms index base with
    | error e =>
      simp only [hbs] at hok
      exact Except.noConfusion hok
    | ok bs0 =>
      simp only [hbs] at hok
      cases hls : loadTarget labels base with
      | error e =>
        simp only [hls] at hok
        exact Except.noConfusion hok
      | ok ls0 =>
        simp only [hls] at hok
        cases hf : filterBoxes ((h : Int), (w : Int)) 1
            (torchTensorOfBoxes bs0) (some ls0) with
        | error e =>
          simp only [hf] at hok
          exact Except.noConfusion hok
        | ok bl =>
          obtain ⟨b, l⟩ := bl
          simp only [hf] at hok
          injection hok with h2
          subst h2
          refine ⟨rfl, ?_⟩
          exact filterBoxes_some_label hf

/-- Witness for C8: concrete accesses of all three split/task shapes. -/
theorem c8_witness :
    getitem Split.test Task.task1 () () () () 200 200 ([] : List Row)
        (fun _ => (none : Option (Feature Unit))) []
        (fun _ => ((0 : Int), (0 : Int))) "a.tif" =
      .ok ⟨(), (), (), (), none, none⟩ ∧
    ((Sample.boxes ⟨(), (), (), (), some (.t2d [⟨0, 0, 80, 50⟩]),
        none⟩).isSome = true ∧
      Sample.label ⟨(), (), (), (), some (.t2d [⟨0, 0, 80, 50⟩]), none⟩ =
        none) ∧
    ((Sample.boxes ⟨(), (), (), (), some (.t2d [⟨0, 0, 80, 50⟩]),
        some [1]⟩).isSome = true ∧
      (Sample.label ⟨(), (), (), (), some (.t2d [⟨0, 0, 80, 50⟩]),
        some [1]⟩).isSome = true) := by
  refine ⟨(c8_sample_keys () () () () 200 200 ([] : List Row)
      (fun _ => (none : Option (Feature Unit))) []
      (fun _ => ((0 : Int), (0 : Int))) "a.tif").1, ?_, ?_⟩
  · exact (c8_sample_keys () () () () 200 200 ([] : List Row)
      (fun _ => (none : Option (Feature (Int × Int))))
      [⟨"a.tif", [[((0 : Int), (0 : Int)), (50, 80)]]⟩]
      (fun p => p) "a.tif").2.1
      ⟨(), (), (), (), some (.t2d [⟨0, 0, 80, 50⟩]), none⟩ rfl
  · exact (c8_sample_keys () () () () 200 200 [⟨"a.tif", "ACRU", 7⟩]
      (fun i => if i = 7 then
        some ⟨"", [[((0 : Int), (0 : Int)), (50, 80)]]⟩ else none)
      [] (fun p => p) "a.tif").2.2 Task.task1
      ⟨(), (), (), (), some (.t2d [⟨0, 0, 80, 50⟩]), some [1]⟩ rfl

/-- C10: every label value of a successfully returned train Sample is below
33, and when a matching annotation row carries a `taxonID` outside the 33
species codes (with the box loading itself succeeding), indexed access raises
the lookup error instead of returning an out-of-range label. -/
theorem c10_label_range {τ α : Type} (image hsi chm las : τ) (h w : Nat)
    (labels : List Row) (geoms : Int → Option (Feature α))
    (testGeoms : List (Feature α)) (index : α → Int × Int) (base : String) :
    (∀ (task : Task) (s : Sample τ) (ls : List Nat),
      getitem Split.train task image hsi chm las h w labels geoms testGeoms
        index base = .ok s → s.label = some ls → ∀ v ∈ ls, v < 33) ∧
    (∀ (task : Task) (r : Row) (bs0 : List Box),
      r ∈ matchingRows labels base → r.taxonID ∉ classCodes →
      loadBoxesTrain labels geoms index base = .ok bs0 →
      getitem Split.train task image hsi chm las h w labels geoms testGeoms
        index base = .error PyErr.keyError) := by
  constructor
  · intro task s ls hok hlab v hv
    simp only [getitem] at hok
    cases hbs : loadBoxesTrain labels geoms index base with
    | error e =>
      simp only [hbs] at hok
      exact Except.noConfusion hok
    | ok bs0 =>
      simp only [hbs] at hok
      cases hls : loadTarget labels base with
      | error e =>
        simp only [hls] at hok
        exact Except.noConfusion hok
      | ok ls0 =>
        simp only [hls] at hok
        cases hf : filterBoxes ((h : Int), (w : Int)) 1
            (torchTensorOfBoxes bs0) (some ls0) with
        | error e =>
          simp only [hf] at hok
          exact Except.noConfusion hok
        | ok bl =>
          obtain ⟨b, l⟩ := bl
          simp only [hf] at hok
          injection hok with h2
          subst h2
          have hl : l = some ls := hlab
          subst hl
          have hmem : v ∈ ls0 := filterBoxes_label_mem hf v hv
          rcases emapM_ok_mem hls v hmem with ⟨r, _, hfr⟩
          have hfr2 : (match class2idx r.taxonID with
              | some i => Except.ok i
              | none => Except.error PyErr.keyError) = Except.ok v := hfr
          cases hc : class2idx r.taxonID with
          | none =>
            rw [hc] at hfr2
            exact Except.noConfusion hfr2
          | some i =>
            rw [hc] at hfr2
            injection hfr2 with h3
            subst h3
            have hlt := lookupIdx_lt classCodes 0 r.taxonID i hc
            have h33 : 0 + classCodes.length = 33 := rfl
            omega
  · intro task r bs0 hr hnc hbs
    have hc : class2idx r.taxonID = none :=
      lookupIdx_none_of_not_mem _ 0 _ hnc
    have htgt : loadTarget labels base = .error .keyError :=
      loadTarget_keyError ⟨r, hr, hc⟩
    simp only [getitem, hbs, htgt]

/-- Witness for C10: a valid code gives a label below 33, and an unknown
`taxonID` makes the access fail with the lookup error. -/
theorem c10_witness :
    (1 : Nat) < 33 ∧
    getitem Split.train Task.task1 () () () () 200 200
        [⟨"a.tif", "ZZZZ", 7⟩]
        (fun i => if i = 7 then
          some ⟨"", [[((0 : Int), (0 : Int)), (50, 80)]]⟩ else none)
        [] (fun p => p) "a.tif" = .error PyErr.keyError := by
  refine ⟨?_, ?_⟩
  · exact (c10_label_range () () () () 200 200 [⟨"a.tif", "ACRU", 7⟩]
      (fun i => if i = 7 then
        some ⟨"", [[((0 : Int), (0 : Int)), (50, 80)]]⟩ else none)
      [] (fun p => p) "a.tif").1 Task.task1
      ⟨(), (), (), (), some (.t2d [⟨0, 0, 80, 50⟩]), some [1]⟩ [1] rfl rfl 1
      (by decide)
  · exact (c10_label_range () () () () 200 200 [⟨"a.tif", "ZZZZ", 7⟩]
      (fun i => if i = 7 then
        some ⟨"", [[((0 : Int), (0 : Int)), (50, 80)]]⟩ else none)
      [] (fun p => p) "a.tif").2 Task.task1 ⟨"a.tif", "ZZZZ", 7⟩
      [⟨0, 0, 80, 50⟩] (by decide) (by decide) rfl

end IDTReeS
